import Mathlib

/-
Verification development for the erasure-coded repair data path
(satellite/repair/repairer/ec.go): the download coordinator Get, the
upload coordinator Repair, the piece verifier verifyPieceHash, and the
helpers nonNilCount and unique.

Modelling conventions:
  - storj.NodeID is modelled as Nat, with 0 playing the role of the zero
    value storj.NodeID{} (the value a nil limit slot leaves in the id list).
  - Cryptographic signatures are modelled symbolically: a signature field
    is valid for a key exactly when it equals that key.  This preserves
    the control flow of the verification functions, which only branch on
    whether a signature check passed.
  - The content hash (pkcrypto.NewHash, SHA-256) is modelled as an
    injective, never-empty function of the byte stream.
  - Byte strings are List Nat.
  - The concurrent worker pool of Get is modelled as a small-step
    transition relation on an explicit shared state, one step per
    lock-protected critical section of the source; the drain loop of
    Repair is modelled as a fold over the task results in an arbitrary
    arrival order.
-/

namespace ECRepair

/-- Node identifier; 0 models the zero storj.NodeID. -/
abbrev NodeId := Nat

/-- pb.OrderLimit restricted to the fields the repairer reads. -/
structure OrderLimit where
  storageNodeId : NodeId
  pieceId : Nat
  uplinkPublicKey : Nat
  satelliteSignature : Nat
  deriving DecidableEq, Repr

/-- pb.PieceHash restricted to the fields the repairer reads. -/
structure PieceHash where
  pieceId : Nat
  hash : List Nat
  signature : Nat
  deriving DecidableEq, Repr

/-- pb.AddressedOrderLimit: an order limit plus the target node address. -/
structure AddressedOrderLimit where
  limit : OrderLimit
  address : Nat
  deriving DecidableEq, Repr

/-- pb.RemotePiece as appended to failedPieces by Get. -/
structure RemotePiece where
  pieceNum : Nat
  nodeId : NodeId
  deriving DecidableEq, Repr

/-- pb.Node as recorded in successfulNodes by Repair. -/
structure Node where
  id : NodeId
  address : Nat
  deriving DecidableEq, Repr

/-- Symbolic model of signing.VerifyUplinkPieceHashSignature: the hash
signature validates against a public key iff it was produced with it. -/
def verifyUplinkPieceHashSignatureOk (publicKey : Nat) (hash : PieceHash) : Bool :=
  hash.signature = publicKey

/-- Symbolic model of signing.VerifyOrderLimitSignature against the
satellite signee, as wrapped by verifyOrderLimitSignature in ec.go. -/
def verifyOrderLimitSignatureOk (satellite : Nat) (limit : OrderLimit) : Bool :=
  limit.satelliteSignature = satellite

/-- Symbolic model of the streamed content hash: injective and never
empty, like a SHA-256 digest of the downloaded bytes. -/
def computedHash (data : List Nat) : List Nat :=
  0 :: data

/-- The failure reasons of verifyPieceHash, one per early return. -/
inductive VerifyErr where
  | invalidArguments
  | pieceIdChanged
  | hashMismatch
  | invalidHashSignature
  deriving DecidableEq, Repr

/-- verifyPieceHash from ec.go: nil-argument check, piece-id equality,
hash-byte equality against the independently computed hash, then the
uplink signature on the hash.  It does not look at the order-limit
signature. -/
def verifyPieceHash (limit : Option OrderLimit) (hash : Option PieceHash)
    (expectedHash : List Nat) : Except VerifyErr Unit :=
  match limit, hash with
  | some limit, some hash =>
    if expectedHash.length = 0 then .error .invalidArguments
    else if limit.pieceId ≠ hash.pieceId then .error .pieceIdChanged
    else if hash.hash ≠ expectedHash then .error .hashMismatch
    else if ¬ verifyUplinkPieceHashSignatureOk limit.uplinkPublicKey hash then
      .error .invalidHashSignature
    else .ok ()
  | _, _ => .error .invalidArguments

/-- The success condition claimed by the spec for the piece verifier: all
five listed failure conditions absent, including a valid order-limit
signature.  Written from the spec text, to be compared with the
source-derived verifyPieceHash. -/
def specVerifierSuccess (satellite : Nat) (limit : Option OrderLimit)
    (hash : Option PieceHash) (expectedHash : List Nat) : Prop :=
  ∃ L H, limit = some L ∧ hash = some H ∧ expectedHash ≠ [] ∧
    L.pieceId = H.pieceId ∧ H.hash = expectedHash ∧
    verifyUplinkPieceHashSignatureOk L.uplinkPublicKey H = true ∧
    verifyOrderLimitSignatureOk satellite L = true

/-- nonNilCount from ec.go: the number of non-nil limit slots. -/
def nonNilCount (limits : List (Option AddressedOrderLimit)) : Nat :=
  limits.countP (fun limit => limit.isSome)

/-- The id list built by unique: each slot contributes its node id, nil
slots keep the zero id. -/
def limitIds (limits : List (Option AddressedOrderLimit)) : List NodeId :=
  limits.map (fun al =>
    match al with
    | some al => al.limit.storageNodeId
    | none => 0)

/-- The neighbour scan of unique over the sorted id list: an adjacent
equal pair is only reported when the id is not the zero id. -/
def hasAdjacentDup : List NodeId → Bool
  | a :: b :: rest => (decide (b ≠ 0) && decide (a = b)) || hasAdjacentDup (b :: rest)
  | _ => false

/-- unique from ec.go: slices shorter than 2 pass; otherwise sort the id
list and reject exactly when some adjacent pair repeats a nonzero id. -/
def unique (limits : List (Option AddressedOrderLimit)) : Bool :=
  if limits.length < 2 then true
  else ! hasAdjacentDup (List.insertionSort (· ≤ ·) (limitIds limits))

theorem hasAdjacentDup_iff_count (l : List NodeId) (hs : List.Sorted (· ≤ ·) l) :
    hasAdjacentDup l = true ↔ ∃ x, x ≠ 0 ∧ 2 ≤ l.count x := by
  induction l with
  | nil => simp [hasAdjacentDup]
  | cons a t ih =>
    cases t with
    | nil =>
      simp only [hasAdjacentDup]
      constructor
      · intro h; exact absurd h (by simp)
      · rintro ⟨x, -, hcnt⟩
        have h1 : List.count x [a] ≤ 1 := by
          simpa using List.count_le_length x [a]
        omega
    | cons b r =>
      have hab : a ≤ b := (List.sorted_cons.mp hs).1 b (by simp)
      have hs2 : List.Sorted (· ≤ ·) (b :: r) := (List.sorted_cons.mp hs).2
      have hbr : ∀ y ∈ r, b ≤ y := fun y hy => (List.sorted_cons.mp hs2).1 y hy
      by_cases hdup : b ≠ 0 ∧ a = b
      · have hEq : hasAdjacentDup (a :: b :: r) = true := by
          simp only [hasAdjacentDup, Bool.or_eq_true, Bool.and_eq_true]
          exact Or.inl ⟨by simpa using hdup.1, by simpa using hdup.2⟩
        rw [hEq]
        simp only [true_iff]
        refine ⟨b, hdup.1, ?_⟩
        rw [show a = b from hdup.2, List.count_cons_self, List.count_cons_self]
        omega
      · have hfalse : (decide (b ≠ 0) && decide (a = b)) = false := by
          rcases not_and_or.mp hdup with h | h
          · have hb0 : b = 0 := not_not.mp h
            simp [hb0]
          · simp [h]
        have hstep : hasAdjacentDup (a :: b :: r) = hasAdjacentDup (b :: r) := by
          simp only [hasAdjacentDup, hfalse, Bool.false_or]
        rw [hstep, ih hs2]
        constructor
        · rintro ⟨x, hx0, hcnt⟩
          refine ⟨x, hx0, le_trans hcnt ?_⟩
          exact (List.sublist_cons_self a (b :: r)).count_le x
        · rintro ⟨x, hx0, hcnt⟩
          refine ⟨x, hx0, ?_⟩
          by_cases hxa : x = a
          · subst hxa
            rw [List.count_cons_self] at hcnt
            have hmem : x ∈ b :: r := List.count_pos_iff.mp (by omega)
            have hxb : x = b := by
              rcases List.mem_cons.mp hmem with h | h
              · exact h
              · exact le_antisymm hab (hbr x h)
            have hb0 : b = 0 := by
              rcases not_and_or.mp hdup with h | h
              · exact not_not.mp h
              · exact absurd hxb h
            exact absurd (hxb.trans hb0) hx0
          · rwa [List.count_cons_of_ne hxa] at hcnt

theorem unique_eq_false_iff (limits : List (Option AddressedOrderLimit)) :
    unique limits = false ↔ ∃ x, x ≠ 0 ∧ 2 ≤ (limitIds limits).count x := by
  unfold unique
  by_cases hlen : limits.length < 2
  · simp only [hlen, if_true]
    constructor
    · intro h; exact absurd h (by simp)
    · rintro ⟨x, -, hcnt⟩
      have hle := List.count_le_length x (limitIds limits)
      have hlm : (limitIds limits).length = limits.length := by simp [limitIds]
      omega
  · simp only [hlen, if_false, Bool.not_eq_false']
    rw [hasAdjacentDup_iff_count _ (List.sorted_insertionSort _ _)]
    constructor
    · rintro ⟨x, hx0, hc⟩
      exact ⟨x, hx0, by
        rwa [(List.perm_insertionSort (· ≤ ·) (limitIds limits)).count_eq x] at hc⟩
    · rintro ⟨x, hx0, hc⟩
      exact ⟨x, hx0, by
        rwa [(List.perm_insertionSort (· ≤ ·) (limitIds limits)).count_eq x]⟩

/-- C5 counterexample: the spec lists an invalid order-limit signature
among the failure conditions of the piece verifier, but verifyPieceHash
never inspects the order-limit signature; at the concrete input below the
order-limit signature is invalid for the satellite and verifyPieceHash
still succeeds, so the claimed iff fails. -/
theorem verifyPieceHash_not_specVerifierSuccess :
    ¬ (∀ satellite limit hash expectedHash,
        verifyPieceHash limit hash expectedHash = Except.ok () ↔
          specVerifierSuccess satellite limit hash expectedHash) := by
  intro hclaim
  rcases (hclaim 0 (some ⟨0, 0, 0, 1⟩) (some ⟨0, [5], 0⟩) [5]).mp rfl with
    ⟨L, H, hL, hH, he, hpid, hh, hup, hsat⟩
  cases Option.some.inj hL
  exact absurd hsat (by decide)

/-- C5 (amended): verifyPieceHash is a pure function of its three
arguments — determinism and absence of side effects are definitional in
this embedding — and it succeeds iff both inputs are non-nil, the
computed hash is nonempty, the piece ids agree, the hash bytes agree
with the computed hash, and the uplink hash signature is valid.  The
order-limit signature is not among its conditions; it is checked
separately by verifyOrderLimitSignature. -/
theorem verifyPieceHash_ok_iff (limit : Option OrderLimit) (hash : Option PieceHash)
    (expectedHash : List Nat) :
    verifyPieceHash limit hash expectedHash = Except.ok () ↔
      ∃ L H, limit = some L ∧ hash = some H ∧ expectedHash ≠ [] ∧
        L.pieceId = H.pieceId ∧ H.hash = expectedHash ∧
        verifyUplinkPieceHashSignatureOk L.uplinkPublicKey H = true := by
  cases limit with
  | none => simp [verifyPieceHash]
  | some L =>
    cases hash with
    | none => simp [verifyPieceHash]
    | some H =>
      constructor
      · intro h
        simp only [verifyPieceHash] at h
        split_ifs at h with h1 h2 h3 h4
        refine ⟨L, H, rfl, rfl, ?_, not_not.mp h2, not_not.mp h3, h4⟩
        intro he
        rw [he] at h1
        exact h1 rfl
      · rintro ⟨L2, H2, hL, hH, he, hpid, hh, hup⟩
        cases Option.some.inj hL
        cases Option.some.inj hH
        have h1 : ¬ expectedHash.length = 0 := by
          cases expectedHash with
          | nil => exact absurd rfl he
          | cons a t => simp
        simp only [verifyPieceHash]
        rw [if_neg h1, if_neg (not_not_intro hpid), if_neg (not_not_intro hh),
          if_neg (not_not_intro hup)]

/-- C10: the duplicate-destination check unique ignores the zero node
id: it rejects (returns false) exactly when some nonzero node id
occupies at least two slots of the id list; repeats of the zero id — in
particular the zero entries left by two or more nil slots — never cause
rejection. -/
theorem unique_ignores_zero_id (limits : List (Option AddressedOrderLimit)) :
    unique limits = false ↔ ∃ x, x ≠ 0 ∧ 2 ≤ (limitIds limits).count x :=
  unique_eq_false_iff limits

/-- The error classes a single piece download can produce, one per early
return of downloadAndVerifyPiece.  dialFailed and downloadFailed carry
the piecestore error class; only pieceHashVerifyFailed carries the
ErrPieceHashVerifyFailed class that Get matches on. -/
inductive DownloadErr where
  | dialFailed
  | downloadFailed
  | wrongSize (want got : Nat)
  | missingHash
  | missingLimit
  | invalidOrderLimitSignature
  | pieceHashVerifyFailed (e : VerifyErr)
  deriving DecidableEq, Repr

/-- piecestore.Error.Has: true for errors coming out of the piecestore
client (dial and download), false for the repairer's own errors. -/
def piecestoreErrorHas : DownloadErr → Bool
  | .dialFailed => true
  | .downloadFailed => true
  | _ => false

/-- ErrPieceHashVerifyFailed.Has: true exactly for the error wrapped by
the ErrPieceHashVerifyFailed class at the end of downloadAndVerifyPiece. -/
def errPieceHashVerifyFailedHas : DownloadErr → Bool
  | .pieceHashVerifyFailed _ => true
  | _ => false

/-- What one storage node answers at one address: whether the dial and
the download succeed, the bytes served, and the signed hash and echoed
order limit sent at the end of the download. -/
structure NodeResponse where
  dialOk : Bool
  downloadOk : Bool
  data : List Nat
  hash : Option PieceHash
  originalLimit : Option OrderLimit
  deriving Repr

/-- downloadAndVerifyPiece from ec.go, as a function of the node's
response: dial, download, check the byte count equals pieceSize, check
the signed hash and echoed limit are present, verify the echoed limit is
signed by the satellite, then verify the piece hash; only that last
failure is wrapped in ErrPieceHashVerifyFailed. -/
def downloadAndVerifyPiece (satellite : Nat) (pieceSize : Nat)
    (resp : NodeResponse) : Except DownloadErr (List Nat) :=
  if ¬ resp.dialOk then .error .dialFailed
  else if ¬ resp.downloadOk then .error .downloadFailed
  else if resp.data.length ≠ pieceSize then .error (.wrongSize pieceSize resp.data.length)
  else
    match resp.hash, resp.originalLimit with
    | none, _ => .error .missingHash
    | some _, none => .error .missingLimit
    | some hash, some originalLimit =>
      if ¬ verifyOrderLimitSignatureOk satellite originalLimit then
        .error .invalidOrderLimitSignature
      else
        match verifyPieceHash (some originalLimit) (some hash) (computedHash resp.data) with
        | .error e => .error (.pieceHashVerifyFailed e)
        | .ok _ => .ok resp.data

/-- The download environment seen by the Get workers: the satellite
signee, the expected piece size, the cached ip:port per node id (none
models the empty string of a map miss), and each node's response per
(limit index, address contacted). -/
structure GetEnv where
  satellite : Nat
  pieceSize : Nat
  cachedIPsAndPorts : NodeId → Option Nat
  resp : Nat → Nat → NodeResponse

/-- The fetch a worker performs for limit index i (ec.go lines 123-136):
prefer the cached address when present and different from the address in
the limit; when that attempt fails with a piecestore-class error, retry
once at the address in the limit. -/
def fetchPiece (env : GetEnv) (limit : AddressedOrderLimit) (i : Nat) :
    Except DownloadErr (List Nat) :=
  let address := limit.address
  match env.cachedIPsAndPorts limit.limit.storageNodeId with
  | some lastIPPort =>
    if lastIPPort ≠ address then
      match downloadAndVerifyPiece env.satellite env.pieceSize (env.resp i lastIPPort) with
      | .error e =>
        if piecestoreErrorHas e then
          downloadAndVerifyPiece env.satellite env.pieceSize (env.resp i address)
        else .error e
      | .ok d => .ok d
    else downloadAndVerifyPiece env.satellite env.pieceSize (env.resp i address)
  | none => downloadAndVerifyPiece env.satellite env.pieceSize (env.resp i address)

/-- The lifecycle of one limit slot inside Get: waiting and abstained
workers are the ones the source still counts in unusedLimits (a worker
that exits without claiming never decrements it); notLimit marks
indices carrying no worker (nil slots and out-of-range indices). -/
inductive WStatus where
  | notLimit
  | waiting
  | abstained
  | inProgress
  | succeeded
  | failed
  deriving DecidableEq, Repr

/-- The shared state of Get protected by cond.L: the per-slot worker
status, the pieceReaders map, and the failedPieces and errlist
accumulators. -/
structure GetState where
  status : Nat → WStatus
  pieceReaders : Nat → Option (List Nat)
  failedPieces : List RemotePiece
  errlist : List (NodeId × DownloadErr)

/-- The limit in slot i, none when the slot is nil or out of range. -/
def limitAt (limits : List (Option AddressedOrderLimit)) (i : Nat) :
    Option AddressedOrderLimit :=
  limits.getD i none

/-- The number of slots among the first n whose worker is in a given
status. -/
def statusCount (n : Nat) (f : Nat → WStatus) (st : WStatus) : Nat :=
  ((Finset.range n).filter (fun j => f j = st)).card

/-- The successfulPieces counter of ec.go. -/
def successfulPieces (n : Nat) (s : GetState) : Nat :=
  statusCount n s.status .succeeded

/-- The inProgress counter of ec.go. -/
def inProgressCount (n : Nat) (s : GetState) : Nat :=
  statusCount n s.status .inProgress

/-- The unusedLimits counter of ec.go: workers that have not claimed a
slot, whether still contending or already exited without work. -/
def unusedLimits (n : Nat) (s : GetState) : Nat :=
  statusCount n s.status .waiting + statusCount n s.status .abstained

/-- The number of entries in the pieceReaders map. -/
def pieceReadersCard (n : Nat) (s : GetState) : Nat :=
  ((Finset.range n).filter (fun j => (s.pieceReaders j).isSome)).card

/-- The state at the start of Get: one waiting worker per non-nil slot,
no pieces collected, no failures recorded. -/
def initState (limits : List (Option AddressedOrderLimit)) : GetState where
  status := fun i =>
    match limitAt limits i with
    | some _ => .waiting
    | none => .notLimit
  pieceReaders := fun _ => none
  failedPieces := []
  errlist := []

/-- One transition of the Get worker pool; each constructor is one
lock-protected critical section of ec.go lines 98-162.  A worker claims
a slot (claim) only when all three branch conditions of the admission
loop fail: successfulPieces < k, k is still reachable, and
successfulPieces + inProgress < k. -/
inductive GetStep (k : Nat) (env : GetEnv)
    (limits : List (Option AddressedOrderLimit)) : GetState → GetState → Prop where
  | claim (s : GetState) (i : Nat)
      (hw : s.status i = .waiting)
      (h1 : ¬ k ≤ successfulPieces limits.length s)
      (h2 : ¬ successfulPieces limits.length s + inProgressCount limits.length s
              + unusedLimits limits.length s < k)
      (h3 : ¬ k ≤ successfulPieces limits.length s + inProgressCount limits.length s) :
      GetStep k env limits s
        { s with status := Function.update s.status i .inProgress }
  | abstainEnough (s : GetState) (i : Nat)
      (hw : s.status i = .waiting)
      (h1 : k ≤ successfulPieces limits.length s) :
      GetStep k env limits s
        { s with status := Function.update s.status i .abstained }
  | abstainUnreachable (s : GetState) (i : Nat)
      (hw : s.status i = .waiting)
      (h1 : ¬ k ≤ successfulPieces limits.length s)
      (h2 : successfulPieces limits.length s + inProgressCount limits.length s
              + unusedLimits limits.length s < k) :
      GetStep k env limits s
        { s with status := Function.update s.status i .abstained }
  | finishSuccess (s : GetState) (i : Nat) (limit : AddressedOrderLimit) (data : List Nat)
      (hp : s.status i = .inProgress)
      (hl : limitAt limits i = some limit)
      (hf : fetchPiece env limit i = .ok data) :
      GetStep k env limits s
        { s with
          status := Function.update s.status i .succeeded,
          pieceReaders := Function.update s.pieceReaders i (some data) }
  | finishFail (s : GetState) (i : Nat) (limit : AddressedOrderLimit) (e : DownloadErr)
      (hp : s.status i = .inProgress)
      (hl : limitAt limits i = some limit)
      (hf : fetchPiece env limit i = .error e) :
      GetStep k env limits s
        { s with
          status := Function.update s.status i .failed,
          failedPieces := s.failedPieces ++
            (if errPieceHashVerifyFailedHas e then [⟨i, limit.limit.storageNodeId⟩] else []),
          errlist := s.errlist ++ [(limit.limit.storageNodeId, e)] }

/-- The states the worker pool can reach from the start state. -/
def GetReach (k : Nat) (env : GetEnv) (limits : List (Option AddressedOrderLimit))
    (s : GetState) : Prop :=
  Relation.ReflTransGen (GetStep k env limits) (initState limits) s

/-- limiter.Wait has returned: no worker is still contending or in
flight. -/
def GetTerminal (n : Nat) (s : GetState) : Prop :=
  statusCount n s.status .waiting = 0 ∧ statusCount n s.status .inProgress = 0

theorem limitAt_isSome_lt (limits : List (Option AddressedOrderLimit)) (i : Nat)
    (h : (limitAt limits i).isSome) : i < limits.length := by
  by_contra hge
  rw [limitAt, List.getD, List.get?_eq_none.mpr (by omega)] at h
  simp at h

theorem statusCount_update_eq_add_one (n : Nat) (f : Nat → WStatus) (i : Nat) (b : WStatus)
    (hin : i < n) (hne : f i ≠ b) :
    statusCount n (Function.update f i b) b = statusCount n f b + 1 := by
  unfold statusCount
  have hset : (Finset.range n).filter (fun j => Function.update f i b j = b) =
      insert i ((Finset.range n).filter (fun j => f j = b)) := by
    ext j
    by_cases hji : j = i
    · subst hji
      simp [Function.update_apply, hin]
    · simp [Function.update_apply, hji]
  rw [hset, Finset.card_insert_of_not_mem (by simp [hne])]

theorem statusCount_update_old_add_one (n : Nat) (f : Nat → WStatus) (i : Nat) (b : WStatus)
    (hin : i < n) (hne : f i ≠ b) :
    statusCount n (Function.update f i b) (f i) + 1 = statusCount n f (f i) := by
  unfold statusCount
  have hset : (Finset.range n).filter (fun j => f j = f i) =
      insert i ((Finset.range n).filter (fun j => Function.update f i b j = f i)) := by
    ext j
    by_cases hji : j = i
    · subst hji
      simp [hin]
    · simp [Function.update_apply, hji]
  rw [hset, Finset.card_insert_of_not_mem]
  simp only [Finset.mem_filter, Function.update_apply, if_pos rfl, not_and]
  intro _
  exact fun h => hne h.symm

theorem statusCount_update_other (n : Nat) (f : Nat → WStatus) (i : Nat) (b st : WStatus)
    (hbst : b ≠ st) (hfi : f i ≠ st) :
    statusCount n (Function.update f i b) st = statusCount n f st := by
  unfold statusCount
  congr 1
  ext j
  by_cases hji : j = i
  · subst hji
    simp [Function.update_apply, hbst, hfi]
  · simp [Function.update_apply, hji]

theorem initState_status (limits : List (Option AddressedOrderLimit)) (i : Nat) :
    (initState limits).status i = .waiting ∨ (initState limits).status i = .notLimit := by
  unfold initState
  cases hl : limitAt limits i <;> simp [hl]

theorem statusCount_init_eq_zero (limits : List (Option AddressedOrderLimit)) (st : WStatus)
    (h1 : st ≠ .waiting) (h2 : st ≠ .notLimit) :
    statusCount limits.length (initState limits).status st = 0 := by
  unfold statusCount
  rw [Finset.card_eq_zero, Finset.filter_eq_empty_iff]
  intro j _
  rcases initState_status limits j with h | h <;> rw [h]
  · exact fun hc => h1 hc.symm
  · exact fun hc => h2 hc.symm

/-- The invariant bundle of the Get worker pool: workers only exist on
non-nil slots, the pieceReaders map holds exactly the succeeded slots,
and — the admission invariant — successfulPieces plus inProgress never
exceeds k. -/
def GetInvariant (k : Nat) (limits : List (Option AddressedOrderLimit))
    (s : GetState) : Prop :=
  (∀ i, s.status i ≠ .notLimit → (limitAt limits i).isSome) ∧
  (∀ i, (s.pieceReaders i).isSome ↔ s.status i = .succeeded) ∧
  successfulPieces limits.length s + inProgressCount limits.length s ≤ k

theorem getStep_inv (k : Nat) (env : GetEnv) (limits : List (Option AddressedOrderLimit))
    (s s2 : GetState) (hstep : GetStep k env limits s s2)
    (ih : GetInvariant k limits s) : GetInvariant k limits s2 := by
  obtain ⟨ihWF, ihRd, ihB⟩ := ih
  cases hstep with
  | claim i hw h1 h2 h3 =>
    have hin : i < limits.length :=
      limitAt_isSome_lt limits i (ihWF i (by rw [hw]; decide))
    refine ⟨?_, ?_, ?_⟩
    · intro j hj
      dsimp only at hj
      by_cases hji : j = i
      · subst hji; exact ihWF j (by rw [hw]; decide)
      · rw [Function.update_apply, if_neg hji] at hj
        exact ihWF j hj
    · intro j
      dsimp only
      by_cases hji : j = i
      · subst hji
        rw [Function.update_same, ihRd j, hw]
        decide
      · rw [Function.update_apply, if_neg hji]
        exact ihRd j
    · unfold successfulPieces inProgressCount
      dsimp only
      rw [statusCount_update_other limits.length s.status i .inProgress .succeeded
          (by decide) (by rw [hw]; decide),
        statusCount_update_eq_add_one limits.length s.status i .inProgress hin
          (by rw [hw]; decide)]
      unfold successfulPieces inProgressCount at ihB h3
      omega
  | abstainEnough i hw h1 =>
    have hin : i < limits.length :=
      limitAt_isSome_lt limits i (ihWF i (by rw [hw]; decide))
    refine ⟨?_, ?_, ?_⟩
    · intro j hj
      dsimp only at hj
      by_cases hji : j = i
      · subst hji; exact ihWF j (by rw [hw]; decide)
      · rw [Function.update_apply, if_neg hji] at hj
        exact ihWF j hj
    · intro j
      dsimp only
      by_cases hji : j = i
      · subst hji
        rw [Function.update_same, ihRd j, hw]
        decide
      · rw [Function.update_apply, if_neg hji]
        exact ihRd j
    · unfold successfulPieces inProgressCount
      dsimp only
      rw [statusCount_update_other limits.length s.status i .abstained .succeeded
          (by decide) (by rw [hw]; decide),
        statusCount_update_other limits.length s.status i .abstained .inProgress
          (by decide) (by rw [hw]; decide)]
      exact ihB
  | abstainUnreachable i hw h1 h2 =>
    have hin : i < limits.length :=
      limitAt_isSome_lt limits i (ihWF i (by rw [hw]; decide))
    refine ⟨?_, ?_, ?_⟩
    · intro j hj
      dsimp only at hj
      by_cases hji : j = i
      · subst hji; exact ihWF j (by rw [hw]; decide)
      · rw [Function.update_apply, if_neg hji] at hj
        exact ihWF j hj
    · intro j
      dsimp only
      by_cases hji : j = i
      · subst hji
        rw [Function.update_same, ihRd j, hw]
        decide
      · rw [Function.update_apply, if_neg hji]
        exact ihRd j
    · unfold successfulPieces inProgressCount
      dsimp only
      rw [statusCount_update_other limits.length s.status i .abstained .succeeded
          (by decide) (by rw [hw]; decide),
        statusCount_update_other limits.length s.status i .abstained .inProgress
          (by decide) (by rw [hw]; decide)]
      exact ihB
  | finishSuccess i limit data hp hl hf =>
    have hin : i < limits.length := limitAt_isSome_lt limits i (by rw [hl]; rfl)
    refine ⟨?_, ?_, ?_⟩
    · intro j hj
      dsimp only at hj
      by_cases hji : j = i
      · subst hji; rw [hl]; rfl
      · rw [Function.update_apply, if_neg hji] at hj
        exact ihWF j hj
    · intro j
      dsimp only
      by_cases hji : j = i
      · subst hji
        rw [Function.update_same, Function.update_same]
        simp
      · rw [Function.update_apply, if_neg hji, Function.update_apply, if_neg hji]
        exact ihRd j
    · unfold successfulPieces inProgressCount
      dsimp only
      have h4 := statusCount_update_old_add_one limits.length s.status i .succeeded hin
        (by rw [hp]; decide)
      rw [hp] at h4
      rw [statusCount_update_eq_add_one limits.length s.status i .succeeded hin
          (by rw [hp]; decide)]
      unfold successfulPieces inProgressCount at ihB
      omega
  | finishFail i limit e hp hl hf =>
    have hin : i < limits.length := limitAt_isSome_lt limits i (by rw [hl]; rfl)
    refine ⟨?_, ?_, ?_⟩
    · intro j hj
      dsimp only at hj
      by_cases hji : j = i
      · subst hji; rw [hl]; rfl
      · rw [Function.update_apply, if_neg hji] at hj
        exact ihWF j hj
    · intro j
      dsimp only
      by_cases hji : j = i
      · subst hji
        rw [Function.update_same, ihRd j, hp]
        decide
      · rw [Function.update_apply, if_neg hji]
        exact ihRd j
    · unfold successfulPieces inProgressCount
      dsimp only
      have h4 := statusCount_update_old_add_one limits.length s.status i .failed hin
        (by rw [hp]; decide)
      rw [hp] at h4
      rw [statusCount_update_other limits.length s.status i .failed .succeeded
          (by decide) (by rw [hp]; decide)]
      unfold successfulPieces inProgressCount at ihB
      omega

theorem getReach_inv (k : Nat) (env : GetEnv) (limits : List (Option AddressedOrderLimit))
    (s : GetState) (h : GetReach k env limits s) : GetInvariant k limits s := by
  induction h with
  | refl =>
    refine ⟨?_, ?_, ?_⟩
    · intro i hi
      unfold initState at hi
      dsimp only at hi
      cases hl : limitAt limits i with
      | some al => simp [hl]
      | none =>
        rw [hl] at hi
        simp at hi
    · intro i
      constructor
      · intro hsome; exact absurd hsome (by simp [initState])
      · intro hst
        rcases initState_status limits i with hw | hw <;> rw [hw] at hst <;> cases hst
    · unfold successfulPieces inProgressCount
      rw [statusCount_init_eq_zero limits .succeeded (by decide) (by decide),
        statusCount_init_eq_zero limits .inProgress (by decide) (by decide)]
      omega
  | tail hab hbc ih => exact getStep_inv k env limits _ _ hbc ih

/-- The two configuration errors Get checks before any network
activity (ec.go lines 69-77). -/
inductive GetPrecheckErr where
  | limitsCountMismatch (got want : Nat)
  | notEnoughNonNil (got want : Nat)
  deriving DecidableEq, Repr

/-- The precondition checks of Get, evaluated before any worker is
launched: the limits slice length must equal the total count n of the
erasure scheme and at least k slots must be non-nil. -/
def getPrecheck (limits : List (Option AddressedOrderLimit)) (k n : Nat) :
    Option GetPrecheckErr :=
  if limits.length ≠ n then some (.limitsCountMismatch limits.length n)
  else if nonNilCount limits < k then some (.notEnoughNonNil (nonNilCount limits) k)
  else none

/-- The value Get returns to its caller.  insufficient is the
irreparableError of ec.go lines 170-174, carrying piecesAvailable,
piecesRequired, the accumulated errlist and the failedPieces collected
so far; fecFailed models an infectious.NewFEC failure (also returning
failedPieces); ok is the success return carrying the decode readers and
failedPieces. -/
inductive GetResult where
  | precheckErr (e : GetPrecheckErr)
  | insufficient (piecesAvailable piecesRequired : Nat)
      (errlist : List (NodeId × DownloadErr)) (failedPieces : List RemotePiece)
  | fecFailed (failedPieces : List RemotePiece)
  | ok (pieceReaders : Nat → Option (List Nat)) (failedPieces : List RemotePiece)

/-- The io.ReadCloser part of a Get result: non-nil only on full
success. -/
def GetResult.stream : GetResult → Option (Nat → Option (List Nat))
  | .ok readers _ => some readers
  | _ => none

/-- The failedPieces part of a Get result as seen by the caller. -/
def GetResult.failedPiecesOut : GetResult → List RemotePiece
  | .precheckErr _ => []
  | .insufficient _ _ _ fp => fp
  | .fecFailed fp => fp
  | .ok _ fp => fp

/-- Lines 166-188 of ec.go, applied to the state left after
limiter.Wait: fewer than k successes yields the insufficient-pieces
error; otherwise the FEC decoder is built (fecOk models the external
infectious.NewFEC outcome) and the collected pieceReaders are handed to
the decoder. -/
def getFinalize (k : Nat) (fecOk : Bool) (n : Nat) (s : GetState) : GetResult :=
  if successfulPieces n s < k then
    .insufficient (successfulPieces n s) k s.errlist s.failedPieces
  else if ¬ fecOk then .fecFailed s.failedPieces
  else .ok s.pieceReaders s.failedPieces

/-- The relation between a Get call and the results it can return: an
immediate precheck error computed with no network activity, or the
finalization of a terminal state of the worker pool. -/
def GetReturns (k n : Nat) (fecOk : Bool) (env : GetEnv)
    (limits : List (Option AddressedOrderLimit)) (r : GetResult) : Prop :=
  match getPrecheck limits k n with
  | some e => r = .precheckErr e
  | none => ∃ s, GetReach k env limits s ∧ GetTerminal limits.length s ∧
      r = getFinalize k fecOk limits.length s

/-- C1: download admission invariant.  A worker claims a slot only when,
under the shared lock, successfulPieces + inProgress < k (the guard of
the claim constructor of GetStep); in every reachable state of a Get
call successfulPieces + inProgress never exceeds k; and in any drained
state in which Get takes its success path (successfulPieces reached k)
the pieceReaders map contains exactly k entries. -/
theorem Get_admission_invariant (k : Nat) (env : GetEnv)
    (limits : List (Option AddressedOrderLimit)) (s : GetState)
    (h : GetReach k env limits s) :
    successfulPieces limits.length s + inProgressCount limits.length s ≤ k ∧
    (GetTerminal limits.length s → k ≤ successfulPieces limits.length s →
      successfulPieces limits.length s = k ∧ pieceReadersCard limits.length s = k) := by
  obtain ⟨hWF, hRd, hB⟩ := getReach_inv k env limits s h
  refine ⟨hB, fun hterm hk => ?_⟩
  have hip : inProgressCount limits.length s = 0 := hterm.2
  have hcard : pieceReadersCard limits.length s = successfulPieces limits.length s := by
    unfold pieceReadersCard successfulPieces statusCount
    congr 1
    ext j
    simp only [Finset.mem_filter]
    exact and_congr_right (fun _ => hRd j)
  constructor
  · omega
  · rw [hcard]; omega

/-- A concrete addressed order limit for example traces: node id 1,
piece id 7, uplink key 3, satellite signature 0, address 9. -/
def egLimit : AddressedOrderLimit := ⟨⟨1, 7, 3, 0⟩, 9⟩

/-- A node response that passes every verification step for egLimit
against satellite 0 and piece size 2. -/
def egGoodResp : NodeResponse :=
  ⟨true, true, [4, 4], some ⟨7, computedHash [4, 4], 3⟩, some ⟨1, 7, 3, 0⟩⟩

/-- An environment in which every fetch succeeds and verifies. -/
def egEnv : GetEnv := ⟨0, 2, fun _ => none, fun _ _ => egGoodResp⟩

/-- The state after the single worker of the one-limit example claims
its slot. -/
def egS1 : GetState :=
  { initState [some egLimit] with
    status := Function.update (initState [some egLimit]).status 0 .inProgress }

/-- The state after that worker downloads and verifies its piece. -/
def egS2 : GetState :=
  { egS1 with
    status := Function.update egS1.status 0 .succeeded,
    pieceReaders := Function.update egS1.pieceReaders 0 (some [4, 4]) }

theorem egReach : GetReach 1 egEnv [some egLimit] egS2 := by
  have h1 : GetStep 1 egEnv [some egLimit] (initState [some egLimit]) egS1 :=
    GetStep.claim (initState [some egLimit]) 0 rfl (by decide) (by decide) (by decide)
  have h2 : GetStep 1 egEnv [some egLimit] egS1 egS2 :=
    GetStep.finishSuccess egS1 0 egLimit [4, 4] (by decide) rfl rfl
  exact Relation.ReflTransGen.tail (Relation.ReflTransGen.single h1) h2

/-- Witness for C1: the invariant and the exactly-k conclusion evaluated
on a complete concrete trace with k = 1. -/
theorem Get_admission_invariant_witness :
    successfulPieces 1 egS2 + inProgressCount 1 egS2 ≤ 1 ∧
      successfulPieces 1 egS2 = 1 ∧ pieceReadersCard 1 egS2 = 1 := by
  have h := Get_admission_invariant 1 egEnv [some egLimit] egS2 egReach
  have h2 := h.2 ⟨by decide, by decide⟩ (by decide)
  exact ⟨h.1, h2.1, h2.2⟩

/-- C2: whenever the prechecks pass but the drained pool holds fewer
than k successes, Get returns a nil stream together with the
insufficient-pieces error carrying piecesAvailable = successfulPieces,
piecesRequired = k, the accumulated per-node errlist, and the
failedPieces collected so far. -/
theorem Get_insufficient_pieces (k n : Nat) (fecOk : Bool) (env : GetEnv)
    (limits : List (Option AddressedOrderLimit)) (s : GetState)
    (hpre : getPrecheck limits k n = none)
    (hreach : GetReach k env limits s) (hterm : GetTerminal limits.length s)
    (hlt : successfulPieces limits.length s < k) :
    getFinalize k fecOk limits.length s =
        .insufficient (successfulPieces limits.length s) k s.errlist s.failedPieces ∧
    GetResult.stream (getFinalize k fecOk limits.length s) = none ∧
    GetReturns k n fecOk env limits
      (.insufficient (successfulPieces limits.length s) k s.errlist s.failedPieces) := by
  have hfin : getFinalize k fecOk limits.length s =
      .insufficient (successfulPieces limits.length s) k s.errlist s.failedPieces := by
    unfold getFinalize
    rw [if_pos hlt]
  refine ⟨hfin, by rw [hfin]; rfl, ?_⟩
  simp only [GetReturns, hpre]
  exact ⟨s, hreach, hterm, hfin.symm⟩

/-- Once a worker has failed with an ErrPieceHashVerifyFailed-class
error, its (piece index, node id) record is in failedPieces. -/
theorem getReach_failed_record (k : Nat) (env : GetEnv)
    (limits : List (Option AddressedOrderLimit)) (s : GetState)
    (h : GetReach k env limits s) (i : Nat) (al : AddressedOrderLimit) (e : DownloadErr)
    (hl : limitAt limits i = some al) (hf : fetchPiece env al i = .error e)
    (hhas : errPieceHashVerifyFailedHas e = true) :
    s.status i = .failed → (⟨i, al.limit.storageNodeId⟩ : RemotePiece) ∈ s.failedPieces := by
  induction h with
  | refl =>
    intro hst
    rcases initState_status limits i with hw | hw <;> rw [hw] at hst <;> cases hst
  | tail hab hbc ih =>
    intro hst
    cases hbc with
    | claim j hw h1 h2 h3 =>
      dsimp only at hst ⊢
      by_cases hji : i = j
      · subst hji
        rw [Function.update_same] at hst
        exact absurd hst (by decide)
      · rw [Function.update_apply, if_neg hji] at hst
        exact ih hst
    | abstainEnough j hw h1 =>
      dsimp only at hst ⊢
      by_cases hji : i = j
      · subst hji
        rw [Function.update_same] at hst
        exact absurd hst (by decide)
      · rw [Function.update_apply, if_neg hji] at hst
        exact ih hst
    | abstainUnreachable j hw h1 h2 =>
      dsimp only at hst ⊢
      by_cases hji : i = j
      · subst hji
        rw [Function.update_same] at hst
        exact absurd hst (by decide)
      · rw [Function.update_apply, if_neg hji] at hst
        exact ih hst
    | finishSuccess j limit data hp hl2 hf2 =>
      dsimp only at hst ⊢
      by_cases hji : i = j
      · subst hji
        rw [Function.update_same] at hst
        exact absurd hst (by decide)
      · rw [Function.update_apply, if_neg hji] at hst
        exact ih hst
    | finishFail j limit e2 hp hl2 hf2 =>
      dsimp only at hst ⊢
      by_cases hji : i = j
      · subst hji
        have hal : limit = al := by
          rw [hl] at hl2
          exact (Option.some.inj hl2).symm
        subst hal
        have he : e = e2 := by
          rw [hf] at hf2
          injection hf2
        subst he
        rw [if_pos hhas]
        exact List.mem_append_right _ (List.mem_singleton.mpr rfl)
      · rw [Function.update_apply, if_neg hji] at hst
        exact List.mem_append_left _ (ih hst)

/-- Every record in failedPieces comes from a worker whose fetch failed
with an ErrPieceHashVerifyFailed-class error: the source appends to
failedPieces only under ErrPieceHashVerifyFailed.Has. -/
theorem getReach_failedPieces_sound (k : Nat) (env : GetEnv)
    (limits : List (Option AddressedOrderLimit)) (s : GetState)
    (h : GetReach k env limits s) :
    ∀ r ∈ s.failedPieces, ∃ al e, limitAt limits r.pieceNum = some al ∧
      r.nodeId = al.limit.storageNodeId ∧ fetchPiece env al r.pieceNum = .error e ∧
      errPieceHashVerifyFailedHas e = true := by
  induction h with
  | refl =>
    intro r hr
    cases hr
  | tail hab hbc ih =>
    intro r hr
    cases hbc with
    | claim j hw h1 h2 h3 => exact ih r hr
    | abstainEnough j hw h1 => exact ih r hr
    | abstainUnreachable j hw h1 h2 => exact ih r hr
    | finishSuccess j limit data hp hl2 hf2 => exact ih r hr
    | finishFail j limit e2 hp hl2 hf2 =>
      dsimp only at hr
      rcases List.mem_append.mp hr with hr2 | hr2
      · exact ih r hr2
      · by_cases hhas : errPieceHashVerifyFailedHas e2 = true
        · rw [if_pos hhas] at hr2
          have hr3 := List.mem_singleton.mp hr2
          subst hr3
          exact ⟨limit, e2, hl2, rfl, hf2, hhas⟩
        · rw [if_neg hhas] at hr2
          cases hr2

/-- Once a worker has failed, its (node id, error) pair is in errlist,
whatever the error class. -/
theorem getReach_errlist_record (k : Nat) (env : GetEnv)
    (limits : List (Option AddressedOrderLimit)) (s : GetState)
    (h : GetReach k env limits s) (i : Nat) (al : AddressedOrderLimit) (e : DownloadErr)
    (hl : limitAt limits i = some al) (hf : fetchPiece env al i = .error e) :
    s.status i = .failed → (al.limit.storageNodeId, e) ∈ s.errlist := by
  induction h with
  | refl =>
    intro hst
    rcases initState_status limits i with hw | hw <;> rw [hw] at hst <;> cases hst
  | tail hab hbc ih =>
    intro hst
    cases hbc with
    | claim j hw h1 h2 h3 =>
      dsimp only at hst ⊢
      by_cases hji : i = j
      · subst hji
        rw [Function.update_same] at hst
        exact absurd hst (by decide)
      · rw [Function.update_apply, if_neg hji] at hst
        exact ih hst
    | abstainEnough j hw h1 =>
      dsimp only at hst ⊢
      by_cases hji : i = j
      · subst hji
        rw [Function.update_same] at hst
        exact absurd hst (by decide)
      · rw [Function.update_apply, if_neg hji] at hst
        exact ih hst
    | abstainUnreachable j hw h1 h2 =>
      dsimp only at hst ⊢
      by_cases hji : i = j
      · subst hji
        rw [Function.update_same] at hst
        exact absurd hst (by decide)
      · rw [Function.update_apply, if_neg hji] at hst
        exact ih hst
    | finishSuccess j limit data hp hl2 hf2 =>
      dsimp only at hst ⊢
      by_cases hji : i = j
      · subst hji
        rw [Function.update_same] at hst
        exact absurd hst (by decide)
      · rw [Function.update_apply, if_neg hji] at hst
        exact ih hst
    | finishFail j limit e2 hp hl2 hf2 =>
      dsimp only at hst ⊢
      by_cases hji : i = j
      · subst hji
        have hal : limit = al := by
          rw [hl] at hl2
          exact (Option.some.inj hl2).symm
        subst hal
        have he : e = e2 := by
          rw [hf] at hf2
          injection hf2
        subst he
        exact List.mem_append_right _ (List.mem_singleton.mpr rfl)
      · rw [Function.update_apply, if_neg hji] at hst
        exact List.mem_append_left _ (ih hst)

/-- A node response whose signed hash carries hash bytes differing from
the computed hash of the served data: piece-hash verification fails. -/
def egBadHashResp : NodeResponse :=
  ⟨true, true, [4, 4], some ⟨7, [9], 3⟩, some ⟨1, 7, 3, 0⟩⟩

/-- An environment in which every node serves a piece failing hash
verification. -/
def egEnvBadHash : GetEnv := ⟨0, 2, fun _ => none, fun _ _ => egBadHashResp⟩

/-- The failed terminal state of the one-limit trace under
egEnvBadHash. -/
def egT2 : GetState :=
  { egS1 with
    status := Function.update egS1.status 0 .failed,
    failedPieces := egS1.failedPieces ++
      (if errPieceHashVerifyFailedHas (.pieceHashVerifyFailed .hashMismatch) then
        [⟨0, egLimit.limit.storageNodeId⟩] else []),
    errlist := egS1.errlist ++
      [(egLimit.limit.storageNodeId, .pieceHashVerifyFailed .hashMismatch)] }

theorem egReachBadHash : GetReach 1 egEnvBadHash [some egLimit] egT2 := by
  have h1 : GetStep 1 egEnvBadHash [some egLimit] (initState [some egLimit]) egS1 :=
    GetStep.claim (initState [some egLimit]) 0 rfl (by decide) (by decide) (by decide)
  have h2 : GetStep 1 egEnvBadHash [some egLimit] egS1 egT2 :=
    GetStep.finishFail egS1 0 egLimit (.pieceHashVerifyFailed .hashMismatch) (by decide) rfl rfl
  exact Relation.ReflTransGen.tail (Relation.ReflTransGen.single h1) h2

/-- Witness for C2 on the same complete failing trace with k = 1. -/
theorem Get_insufficient_pieces_witness :
    GetResult.stream (getFinalize 1 true 1 egT2) = none ∧
    GetReturns 1 1 true egEnvBadHash [some egLimit]
      (.insufficient (successfulPieces 1 egT2) 1 egT2.errlist egT2.failedPieces) := by
  have h := Get_insufficient_pieces 1 1 true egEnvBadHash [some egLimit] egT2 (by decide)
    egReachBadHash ⟨by decide, by decide⟩ (by decide)
  exact ⟨h.2.1, h.2.2⟩

/-- C3: a downloaded piece whose node-signed hash bytes differ from the
independently computed content hash makes downloadAndVerifyPiece fail
with the ErrPieceHashVerifyFailed class; every worker whose fetch fails
with that class appends its (piece index, node id) record to
failedPieces; and getFinalize returns failedPieces to the caller in the
success branch and in both failure branches alike. -/
theorem Get_records_hash_verify_failures (k : Nat) (env : GetEnv)
    (limits : List (Option AddressedOrderLimit)) (s : GetState)
    (h : GetReach k env limits s) (i : Nat) (al : AddressedOrderLimit) (ve : VerifyErr)
    (hl : limitAt limits i = some al)
    (hst : s.status i = .failed)
    (hf : fetchPiece env al i = .error (.pieceHashVerifyFailed ve)) :
    (⟨i, al.limit.storageNodeId⟩ : RemotePiece) ∈ s.failedPieces ∧
    (∀ fecOk n, GetResult.failedPiecesOut (getFinalize k fecOk n s) = s.failedPieces) ∧
    (∀ sat ps resp hsh ol,
      resp.dialOk = true → resp.downloadOk = true → resp.data.length = ps →
      resp.hash = some hsh → resp.originalLimit = some ol →
      verifyOrderLimitSignatureOk sat ol = true →
      ol.pieceId = hsh.pieceId → hsh.hash ≠ computedHash resp.data →
      downloadAndVerifyPiece sat ps resp = .error (.pieceHashVerifyFailed .hashMismatch)) := by
  refine ⟨getReach_failed_record k env limits s h i al _ hl hf rfl hst, ?_, ?_⟩
  · intro fecOk n
    unfold getFinalize
    split_ifs <;> rfl
  · intro sat ps resp hsh ol hdial hdl hlen hh hol hsig hpid hneq
    unfold downloadAndVerifyPiece
    rw [if_neg (by rw [hdial]; decide), if_neg (by rw [hdl]; decide),
      if_neg (not_not_intro hlen), hh, hol]
    dsimp only
    rw [if_neg (not_not_intro hsig)]
    have hv : verifyPieceHash (some ol) (some hsh) (computedHash resp.data) =
        .error .hashMismatch := by
      unfold verifyPieceHash
      dsimp only
      rw [if_neg (by unfold computedHash; simp), if_neg (not_not_intro hpid),
        if_pos hneq]
    rw [hv]

/-- Witness for C3 evaluated on the complete one-limit trace in which
the node serves data whose hash does not match its signed hash. -/
theorem Get_records_hash_verify_failures_witness :
    (⟨0, 1⟩ : RemotePiece) ∈ egT2.failedPieces ∧
    GetResult.failedPiecesOut (getFinalize 1 true 1 egT2) = egT2.failedPieces := by
  have h := Get_records_hash_verify_failures 1 egEnvBadHash [some egLimit] egT2
    egReachBadHash 0 egLimit .hashMismatch rfl (by decide) rfl
  exact ⟨h.1, h.2.1 true 1⟩

/-- A node response echoing an order limit whose satellite signature is
invalid (signed with 1 while the satellite signee is 0); everything else
verifies. -/
def egBadSigResp : NodeResponse :=
  ⟨true, true, [4, 4], some ⟨7, computedHash [4, 4], 3⟩, some ⟨1, 7, 3, 1⟩⟩

/-- An environment in which every node echoes a forged order limit. -/
def egEnvBadSig : GetEnv := ⟨0, 2, fun _ => none, fun _ _ => egBadSigResp⟩

/-- The failed terminal state of the one-limit trace under egEnvBadSig. -/
def egU2 : GetState :=
  { egS1 with
    status := Function.update egS1.status 0 .failed,
    failedPieces := egS1.failedPieces ++
      (if errPieceHashVerifyFailedHas .invalidOrderLimitSignature then
        [⟨0, egLimit.limit.storageNodeId⟩] else []),
    errlist := egS1.errlist ++
      [(egLimit.limit.storageNodeId, .invalidOrderLimitSignature)] }

theorem egReachBadSig : GetReach 1 egEnvBadSig [some egLimit] egU2 := by
  have h1 : GetStep 1 egEnvBadSig [some egLimit] (initState [some egLimit]) egS1 :=
    GetStep.claim (initState [some egLimit]) 0 rfl (by decide) (by decide) (by decide)
  have h2 : GetStep 1 egEnvBadSig [some egLimit] egS1 egU2 :=
    GetStep.finishFail egS1 0 egLimit .invalidOrderLimitSignature (by decide) rfl rfl
  exact Relation.ReflTransGen.tail (Relation.ReflTransGen.single h1) h2

/-- C4 counterexample: a complete Get trace in which the only node
echoes an order limit that fails satellite-signature verification.  The
piece is rejected — the fetch errors with invalidOrderLimitSignature,
which is outside the ErrPieceHashVerifyFailed class — yet failedPieces
stays empty, so the node does not appear in the failed-pieces output
that Get returns, contrary to the claim that such a failure is
classified as a verification failure. -/
theorem Get_orderLimitSig_counterexample :
    fetchPiece egEnvBadSig egLimit 0 = .error .invalidOrderLimitSignature ∧
    errPieceHashVerifyFailedHas .invalidOrderLimitSignature = false ∧
    GetReach 1 egEnvBadSig [some egLimit] egU2 ∧
    GetTerminal 1 egU2 ∧
    egU2.status 0 = .failed ∧
    egU2.failedPieces = [] ∧
    GetReturns 1 1 true egEnvBadSig [some egLimit]
      (.insufficient 0 1 egU2.errlist []) := by
  refine ⟨rfl, rfl, egReachBadSig, ⟨by decide, by decide⟩, by decide, rfl, ?_⟩
  simp only [GetReturns, getPrecheck]
  rw [if_neg (by decide), if_neg (by decide)]
  exact ⟨egU2, egReachBadSig, ⟨by decide, by decide⟩, rfl⟩

/-- C4 (amended): a download whose echoed order limit fails
satellite-signature verification is rejected and never counted as
successful — the worker ends failed, its slot holds no piece reader, and
its (node id, error) pair joins errlist — but the node does NOT appear
in failedPieces, because the source reserves failedPieces for
ErrPieceHashVerifyFailed-class (piece-hash) failures.  A forged echoed
limit is also rejected by downloadAndVerifyPiece before the hash check
runs. -/
theorem Get_orderLimitSig_rejected (k : Nat) (env : GetEnv)
    (limits : List (Option AddressedOrderLimit)) (s : GetState)
    (h : GetReach k env limits s) (i : Nat) (al : AddressedOrderLimit)
    (hl : limitAt limits i = some al)
    (hst : s.status i = .failed)
    (hf : fetchPiece env al i = .error .invalidOrderLimitSignature) :
    s.pieceReaders i = none ∧
    (al.limit.storageNodeId, DownloadErr.invalidOrderLimitSignature) ∈ s.errlist ∧
    (⟨i, al.limit.storageNodeId⟩ : RemotePiece) ∉ s.failedPieces ∧
    (∀ sat ps resp ol,
      resp.dialOk = true → resp.downloadOk = true → resp.data.length = ps →
      resp.hash.isSome → resp.originalLimit = some ol →
      verifyOrderLimitSignatureOk sat ol = false →
      downloadAndVerifyPiece sat ps resp = .error .invalidOrderLimitSignature) := by
  obtain ⟨hWF, hRd, hB⟩ := getReach_inv k env limits s h
  refine ⟨?_, getReach_errlist_record k env limits s h i al _ hl hf hst, ?_, ?_⟩
  · have := hRd i
    rw [hst] at this
    have h2 : ((s.pieceReaders i).isSome = true) = False := by
      simp only [this]
      simp
    rw [Option.isSome_iff_exists] at h2
    cases hr : s.pieceReaders i with
    | none => rfl
    | some v => rw [eq_iff_iff] at h2; exact absurd ⟨v, hr⟩ h2.mp
  · intro hmem
    obtain ⟨al2, e2, hl2, hn2, hf2, hhas2⟩ :=
      getReach_failedPieces_sound k env limits s h _ hmem
    have hal : al2 = al := by
      rw [hl] at hl2
      exact (Option.some.inj hl2).symm
    subst hal
    rw [hf] at hf2
    have he2 : e2 = .invalidOrderLimitSignature := (Except.error.inj hf2).symm
    rw [he2] at hhas2
    exact absurd hhas2 (by decide)
  · intro sat ps resp ol hdial hdl hlen hh hol hsig
    unfold downloadAndVerifyPiece
    rcases Option.isSome_iff_exists.mp hh with ⟨hsh, hh2⟩
    rw [if_neg (by rw [hdial]; decide), if_neg (by rw [hdl]; decide),
      if_neg (not_not_intro hlen), hh2, hol]
    dsimp only
    rw [if_pos (by rw [hsig]; decide)]

/-- Witness for C4 (amended) on the complete forged-limit trace. -/
theorem Get_orderLimitSig_rejected_witness :
    egU2.pieceReaders 0 = none ∧
    (1, DownloadErr.invalidOrderLimitSignature) ∈ egU2.errlist ∧
    (⟨0, 1⟩ : RemotePiece) ∉ egU2.failedPieces := by
  have h := Get_orderLimitSig_rejected 1 egEnvBadSig [some egLimit] egU2
    egReachBadSig 0 egLimit rfl (by decide) rfl
  exact ⟨h.1, h.2.1, h.2.2.1⟩

/-- The base errors an upload can meet.  context.Canceled is the
distinguished cancellation error. -/
inductive UploadBaseErr where
  | canceled
  | dialErr (code : Nat)
  | nodeErr (code : Nat)
  deriving DecidableEq, Repr

/-- A Go error value as the upload path handles it: a chain of base
errors, head first.  errs.Combine concatenates chains keeping its first
argument primary, and errors.Is walks the whole chain. -/
abbrev UploadErrChain := List UploadBaseErr

/-- errs2.IsCanceled, i.e. errors.Is(err, context.Canceled): the chain
contains context.Canceled anywhere. -/
def isCanceledErr (e : UploadErrChain) : Bool :=
  e.contains .canceled

/-- What the upload of one piece encounters: the dial outcome, the
UploadReader outcome, and whether the upload context (psCtx) was in the
cancelled state when putPiece examined the error. -/
structure UploadSlotEnv where
  dial : Option UploadErrChain
  upload : Except UploadErrChain PieceHash
  ctxCanceled : Bool
  deriving Repr

/-- putPiece from ec.go as a function of the slot's limit and its upload
environment: a nil limit drains the piece reader and reports (nil, nil);
a dial failure is returned as-is; an upload failure found while the
upload context is cancelled is combined with context.Canceled as the
primary error; a successful upload returns the node-signed hash. -/
def putPiece (limit : Option AddressedOrderLimit) (env : UploadSlotEnv) :
    Option PieceHash × Option UploadErrChain :=
  match limit with
  | none => (none, none)
  | some _ =>
    match env.dial with
    | some e => (none, some e)
    | none =>
      match env.upload with
      | .ok hash => (some hash, none)
      | .error e =>
        if env.ctxCanceled then (none, some (.canceled :: e))
        else (none, some e)

/-- One entry of the infos channel of Repair: the slot index and the
error and hash its putPiece task reported. -/
structure UploadInfo where
  i : Nat
  err : Option UploadErrChain
  hash : Option PieceHash
  deriving DecidableEq, Repr

/-- The aggregate state of the Repair drain loop: the three counters and
the two result arrays (nil-initialized, like the source's slices). -/
structure RepairAcc where
  successfulCount : Nat
  failureCount : Nat
  cancellationCount : Nat
  successfulNodes : Nat → Option Node
  successfulHashes : Nat → Option PieceHash

/-- The accumulator before any info is drained. -/
def initAcc : RepairAcc := ⟨0, 0, 0, fun _ => none, fun _ => none⟩

/-- One iteration of the drain loop (ec.go lines 366-403): nil slots are
skipped entirely; an error whose chain holds context.Canceled counts as
a cancellation; any other error counts as a node failure; a success
records the node and its hash and bumps successfulCount.  (The
threshold-reached cancel only influences the outcomes of still-running
tasks, which the environment already determines.) -/
def drainStep (limits : List (Option AddressedOrderLimit)) (acc : RepairAcc)
    (info : UploadInfo) : RepairAcc :=
  match limitAt limits info.i with
  | none => acc
  | some al =>
    match info.err with
    | some e =>
      if isCanceledErr e then
        { acc with cancellationCount := acc.cancellationCount + 1 }
      else
        { acc with failureCount := acc.failureCount + 1 }
    | none =>
      { acc with
        successfulCount := acc.successfulCount + 1,
        successfulNodes := Function.update acc.successfulNodes info.i
          (some ⟨al.limit.storageNodeId, al.address⟩),
        successfulHashes := Function.update acc.successfulHashes info.i info.hash }

/-- The whole drain loop, consuming the n channel messages in arrival
order. -/
def repairDrain (limits : List (Option AddressedOrderLimit))
    (infos : List UploadInfo) : RepairAcc :=
  infos.foldl (drainStep limits) initAcc

/-- The upload environment of a Repair call: whether the erasure encoder
was built (EncodeReader2), the per-slot upload outcomes, and whether the
parent context was already cancelled when Repair returned. -/
structure RepairEnv where
  encodeOk : Bool
  slot : Nat → UploadSlotEnv
  parentCanceled : Bool

/-- The info entry the task of slot i sends on the channel. -/
def slotInfo (limits : List (Option AddressedOrderLimit)) (env : RepairEnv)
    (i : Nat) : UploadInfo :=
  ⟨i, (putPiece (limitAt limits i) (env.slot i)).2,
    (putPiece (limitAt limits i) (env.slot i)).1⟩

/-- The channel messages of one Repair call, one per slot, in slot
order; the drain loop may consume them in any permutation. -/
def canonicalInfos (limits : List (Option AddressedOrderLimit)) (env : RepairEnv) :
    List UploadInfo :=
  (List.range limits.length).map (slotInfo limits env)

/-- C9: when UploadReader fails while the upload context is cancelled,
putPiece puts context.Canceled at the head of the combined error chain,
so errs2.IsCanceled holds regardless of which error arrived first, and
the Repair drain counts that slot as a cancellation and never as a node
failure. -/
theorem putPiece_canceled_primary (limits : List (Option AddressedOrderLimit))
    (al : AddressedOrderLimit) (i : Nat) (env : UploadSlotEnv) (e : UploadErrChain)
    (acc : RepairAcc)
    (hl : limitAt limits i = some al)
    (hd : env.dial = none)
    (hu : env.upload = .error e)
    (hc : env.ctxCanceled = true) :
    (putPiece (some al) env).2 = some (.canceled :: e) ∧
    (((.canceled :: e) : UploadErrChain).head? = some .canceled) ∧
    isCanceledErr (.canceled :: e) = true ∧
    (drainStep limits acc ⟨i, (putPiece (some al) env).2, (putPiece (some al) env).1⟩
      ).cancellationCount = acc.cancellationCount + 1 ∧
    (drainStep limits acc ⟨i, (putPiece (some al) env).2, (putPiece (some al) env).1⟩
      ).failureCount = acc.failureCount := by
  have hput : putPiece (some al) env = (none, some (.canceled :: e)) := by
    unfold putPiece
    rw [hd, hu]
    dsimp only
    rw [if_pos hc]
  have hcanc : isCanceledErr (.canceled :: e) = true := by
    unfold isCanceledErr
    simp [List.contains_cons]
  have hds : drainStep limits acc ⟨i, some (.canceled :: e), none⟩ =
      { acc with cancellationCount := acc.cancellationCount + 1 } := by
    unfold drainStep
    rw [hl]
    dsimp only
    rw [if_pos hcanc]
  refine ⟨by rw [hput], rfl, hcanc, ?_, ?_⟩
  · rw [hput]
    dsimp only
    rw [hds]
  · rw [hput]
    dsimp only
    rw [hds]

/-- Witness for C9 at a concrete slot environment. -/
theorem putPiece_canceled_primary_witness :
    (putPiece (some egLimit) ⟨none, .error [.nodeErr 4], true⟩).2 =
        some [.canceled, .nodeErr 4] ∧
    isCanceledErr [.canceled, .nodeErr 4] = true ∧
    (drainStep [some egLimit] initAcc
        ⟨0, (putPiece (some egLimit) ⟨none, .error [.nodeErr 4], true⟩).2,
          (putPiece (some egLimit) ⟨none, .error [.nodeErr 4], true⟩).1⟩
      ).cancellationCount = 1 ∧
    (drainStep [some egLimit] initAcc
        ⟨0, (putPiece (some egLimit) ⟨none, .error [.nodeErr 4], true⟩).2,
          (putPiece (some egLimit) ⟨none, .error [.nodeErr 4], true⟩).1⟩
      ).failureCount = 0 := by
  have h := putPiece_canceled_primary [some egLimit] egLimit 0
    ⟨none, .error [.nodeErr 4], true⟩ [.nodeErr 4] initAcc rfl rfl rfl rfl
  exact ⟨h.1, h.2.2.1, h.2.2.2.1, h.2.2.2.2⟩

/-- The events successfulCount counts: a non-nil slot whose task
reported no error. -/
def infoSuccess (limits : List (Option AddressedOrderLimit)) (inf : UploadInfo) : Bool :=
  (limitAt limits inf.i).isSome && decide (inf.err = none)

/-- The events failureCount counts: a non-nil slot with a
non-cancellation error. -/
def infoFailure (limits : List (Option AddressedOrderLimit)) (inf : UploadInfo) : Bool :=
  (limitAt limits inf.i).isSome &&
    (match inf.err with
     | some e => ! isCanceledErr e
     | none => false)

/-- The events cancellationCount counts: a non-nil slot with a
cancellation error. -/
def infoCancel (limits : List (Option AddressedOrderLimit)) (inf : UploadInfo) : Bool :=
  (limitAt limits inf.i).isSome &&
    (match inf.err with
     | some e => isCanceledErr e
     | none => false)

theorem drainStep_counts (limits : List (Option AddressedOrderLimit)) (acc : RepairAcc)
    (info : UploadInfo) :
    (drainStep limits acc info).successfulCount =
        acc.successfulCount + (if infoSuccess limits info then 1 else 0) ∧
    (drainStep limits acc info).failureCount =
        acc.failureCount + (if infoFailure limits info then 1 else 0) ∧
    (drainStep limits acc info).cancellationCount =
        acc.cancellationCount + (if infoCancel limits info then 1 else 0) := by
  unfold drainStep infoSuccess infoFailure infoCancel
  rcases hls : limitAt limits info.i with _ | al
  · simp [hls]
  · rcases herr : info.err with _ | e
    · simp [hls, herr]
    · cases hc : isCanceledErr e <;> simp [hls, herr, hc]

theorem repairDrain_go_counts (limits : List (Option AddressedOrderLimit))
    (infos : List UploadInfo) :
    ∀ acc : RepairAcc,
    ((infos.foldl (drainStep limits) acc).successfulCount
        = acc.successfulCount + infos.countP (infoSuccess limits)) ∧
    ((infos.foldl (drainStep limits) acc).failureCount
        = acc.failureCount + infos.countP (infoFailure limits)) ∧
    ((infos.foldl (drainStep limits) acc).cancellationCount
        = acc.cancellationCount + infos.countP (infoCancel limits)) := by
  induction infos with
  | nil => intro acc; simp
  | cons h0 t ih =>
    intro acc
    rw [List.foldl_cons, List.countP_cons, List.countP_cons, List.countP_cons]
    obtain ⟨ih1, ih2, ih3⟩ := ih (drainStep limits acc h0)
    obtain ⟨hs1, hs2, hs3⟩ := drainStep_counts limits acc h0
    refine ⟨?_, ?_, ?_⟩
    · rw [ih1, hs1]
      by_cases h : infoSuccess limits h0 = true <;> simp [h] <;> omega
    · rw [ih2, hs2]
      by_cases h : infoFailure limits h0 = true <;> simp [h] <;> omega
    · rw [ih3, hs3]
      by_cases h : infoCancel limits h0 = true <;> simp [h] <;> omega

/-- The three drain categories partition the non-nil slots among any
list of infos. -/
theorem counts_partition (limits : List (Option AddressedOrderLimit))
    (l : List UploadInfo) :
    l.countP (infoSuccess limits) + l.countP (infoFailure limits) +
      l.countP (infoCancel limits) =
      l.countP (fun inf => (limitAt limits inf.i).isSome) := by
  induction l with
  | nil => simp
  | cons h0 t ih =>
    rw [List.countP_cons, List.countP_cons, List.countP_cons, List.countP_cons]
    have hpt : (if infoSuccess limits h0 then 1 else 0) +
        (if infoFailure limits h0 then 1 else 0) +
        (if infoCancel limits h0 then 1 else 0) =
        (if (limitAt limits h0.i).isSome then 1 else 0) := by
      unfold infoSuccess infoFailure infoCancel
      rcases hls : limitAt limits h0.i with _ | al
      · simp [hls]
      · rcases herr : h0.err with _ | e
        · simp [hls, herr]
        · cases hc : isCanceledErr e <;> simp [hls, herr, hc]
    omega

theorem map_limitAt_range (limits : List (Option AddressedOrderLimit)) :
    (List.range limits.length).map (fun i => limitAt limits i) = limits := by
  refine List.ext_get (by simp) ?_
  intro i h1 h2
  rw [List.get_map]
  have hi : i < limits.length := h2
  unfold limitAt
  rw [List.getD, List.get?_eq_get (by simpa using hi)]
  simp

/-- The sum of the three counters over one full drain equals the number
of non-nil slots. -/
theorem drain_counts_total (limits : List (Option AddressedOrderLimit))
    (env : RepairEnv) (infos : List UploadInfo)
    (hperm : infos.Perm (canonicalInfos limits env)) :
    (repairDrain limits infos).successfulCount + (repairDrain limits infos).failureCount +
      (repairDrain limits infos).cancellationCount = nonNilCount limits := by
  obtain ⟨h1, h2, h3⟩ := repairDrain_go_counts limits infos initAcc
  unfold repairDrain
  rw [h1, h2, h3]
  have := counts_partition limits infos
  have hc : infos.countP (fun inf => (limitAt limits inf.i).isSome) =
      nonNilCount limits := by
    rw [hperm.countP_eq]
    unfold canonicalInfos
    rw [List.countP_map]
    have : ((fun inf => (limitAt limits inf.i).isSome) ∘ slotInfo limits env) =
        (fun i => (limitAt limits i).isSome) := by
      funext i
      rfl
    rw [this]
    have hmap := map_limitAt_range limits
    calc (List.range limits.length).countP (fun i => (limitAt limits i).isSome)
        = ((List.range limits.length).map (fun i => limitAt limits i)).countP
            (fun o => o.isSome) := by rw [List.countP_map]; rfl
      _ = limits.countP (fun o => o.isSome) := by rw [hmap]
      _ = nonNilCount limits := rfl
  unfold initAcc
  dsimp only
  omega

/-- A drain iteration writes the result arrays only at its own slot
index, and only for a successful non-nil slot. -/
theorem drainStep_arrays (limits : List (Option AddressedOrderLimit)) (acc : RepairAcc)
    (info : UploadInfo) (j : Nat) :
    ((info.i = j ∧ (limitAt limits j).isSome ∧ info.err = none) →
      ∀ al, limitAt limits j = some al →
        (drainStep limits acc info).successfulNodes j =
          some ⟨al.limit.storageNodeId, al.address⟩ ∧
        (drainStep limits acc info).successfulHashes j = info.hash) ∧
    (¬ (info.i = j ∧ (limitAt limits j).isSome ∧ info.err = none) →
      (drainStep limits acc info).successfulNodes j = acc.successfulNodes j ∧
      (drainStep limits acc info).successfulHashes j = acc.successfulHashes j) := by
  constructor
  · rintro ⟨hij, hsome, herr⟩ al hal
    unfold drainStep
    rw [hij, hal, herr]
    dsimp only
    rw [Function.update_same, Function.update_same]
    exact ⟨rfl, rfl⟩
  · intro hno
    unfold drainStep
    rcases hls : limitAt limits info.i with _ | al
    · exact ⟨rfl, rfl⟩
    · rcases herr : info.err with _ | e
      · dsimp only
        have hij : ¬ j = info.i := by
          intro hji
          exact hno ⟨hji.symm, by rw [← hji] at hls; rw [hls]; rfl, herr⟩
        rw [Function.update_apply, if_neg hij, Function.update_apply, if_neg hij]
        exact ⟨rfl, rfl⟩
      · dsimp only
        cases hc : isCanceledErr e
        · rw [if_neg (by decide)]
          exact ⟨rfl, rfl⟩
        · rw [if_pos (by decide)]
          exact ⟨rfl, rfl⟩

/-- Slots never written keep their nil array entries through the whole
drain. -/
theorem repairDrain_go_untouched (limits : List (Option AddressedOrderLimit)) (j : Nat) :
    ∀ infos : List UploadInfo,
      (∀ inf ∈ infos, ¬ (inf.i = j ∧ (limitAt limits j).isSome ∧ inf.err = none)) →
      ∀ acc : RepairAcc,
        (infos.foldl (drainStep limits) acc).successfulNodes j = acc.successfulNodes j ∧
        (infos.foldl (drainStep limits) acc).successfulHashes j = acc.successfulHashes j := by
  intro infos
  induction infos with
  | nil => intro _ acc; exact ⟨rfl, rfl⟩
  | cons h0 t ih =>
    intro h acc
    rw [List.foldl_cons]
    have hstep := (drainStep_arrays limits acc h0 j).2 (h h0 (by simp))
    have iht := ih (fun inf hin => h inf (by simp [hin])) (drainStep limits acc h0)
    exact ⟨iht.1.trans hstep.1, iht.2.trans hstep.2⟩

/-- With each slot index reported once, the array entry of a successful
non-nil slot ends at the value its own drain iteration wrote. -/
theorem repairDrain_go_written (limits : List (Option AddressedOrderLimit)) (j : Nat)
    (al : AddressedOrderLimit) (hal : limitAt limits j = some al) :
    ∀ infos : List UploadInfo, (infos.map (fun inf => inf.i)).Nodup →
      ∀ inf ∈ infos, inf.i = j → inf.err = none →
      ∀ acc : RepairAcc,
        (infos.foldl (drainStep limits) acc).successfulNodes j =
          some ⟨al.limit.storageNodeId, al.address⟩ ∧
        (infos.foldl (drainStep limits) acc).successfulHashes j = inf.hash := by
  intro infos
  induction infos with
  | nil => intro _ inf hin; cases hin
  | cons h0 t ih =>
    intro hnd inf hin hij herr acc
    rw [List.foldl_cons]
    have hnd2 : h0.i ∉ t.map (fun inf => inf.i) ∧ (t.map (fun inf => inf.i)).Nodup :=
      List.nodup_cons.mp hnd
    rcases List.mem_cons.mp hin with heq | hin2
    · subst heq
      have ht : ∀ inf2 ∈ t, ¬ (inf2.i = j ∧ (limitAt limits j).isSome ∧ inf2.err = none) := by
        rintro inf2 hin2 ⟨hij2, -, -⟩
        apply hnd2.1
        rw [hij]
        exact List.mem_map.mpr ⟨inf2, hin2, hij2⟩
      have hu := repairDrain_go_untouched limits j t ht (drainStep limits acc inf)
      have hw := (drainStep_arrays limits acc inf j).1 ⟨hij, by rw [hal]; rfl, herr⟩ al hal
      exact ⟨hu.1.trans hw.1, hu.2.trans hw.2⟩
    · have hne : ¬ (h0.i = j ∧ (limitAt limits j).isSome ∧ h0.err = none) := by
        rintro ⟨hij0, -, -⟩
        apply hnd2.1
        rw [hij0]
        exact List.mem_map.mpr ⟨inf, hin2, hij⟩
      have hstep := (drainStep_arrays limits acc h0 j).2 hne
      have iht := ih hnd2.2 inf hin2 hij herr (drainStep limits acc h0)
      exact ⟨iht.1, iht.2⟩

/-- The configuration errors Repair checks before encoding or dialing
(ec.go lines 315-322). -/
inductive RepairPrecheckErr where
  | limitsCountMismatch (got want : Nat)
  | duplicatedNodes
  deriving DecidableEq, Repr

/-- The precondition checks of Repair: the limits length must equal the
scheme's total count and unique must accept the destination ids. -/
def repairPrecheck (limits : List (Option AddressedOrderLimit)) (n : Nat) :
    Option RepairPrecheckErr :=
  if limits.length ≠ n then some (.limitsCountMismatch limits.length n)
  else if ¬ unique limits then some .duplicatedNodes
  else none

/-- The error component of a Repair return. -/
inductive RepairErr where
  | precheck (e : RepairPrecheckErr)
  | encodeFailed
  | allNodesFailed
  | repairCanceled
  deriving DecidableEq, Repr

/-- The triple Repair returns: successfulNodes, successfulHashes,
error. -/
abbrev RepairResult :=
  Option (Nat → Option Node) × Option (Nat → Option PieceHash) × Option RepairErr

/-- ec.go lines 405-430 plus the deferred parent-context check: zero
successes return nil slices and the all-nodes-failed error, otherwise
the (possibly partial) arrays are returned with no error; in either
case, a parent context already done at return time makes the deferred
function overwrite the error with the repair-cancelled error, keeping
whatever named return slices were already set. -/
def repairFinalize (parentCanceled : Bool) (acc : RepairAcc) : RepairResult :=
  let base : RepairResult :=
    if acc.successfulCount = 0 then (none, none, some .allNodesFailed)
    else (some acc.successfulNodes, some acc.successfulHashes, none)
  if parentCanceled then (base.1, base.2.1, some .repairCanceled) else base

/-- The relation between a Repair call and the results it can return:
an immediate precheck error before any encoding or dialing, the encoder
error, or the finalization of the drain of all n task results consumed
in some arrival order. -/
def RepairReturns (n : Nat) (env : RepairEnv)
    (limits : List (Option AddressedOrderLimit)) (r : RepairResult) : Prop :=
  match repairPrecheck limits n with
  | some e => r = (none, none, some (.precheck e))
  | none =>
    if env.encodeOk then
      ∃ infos, infos.Perm (canonicalInfos limits env) ∧
        r = repairFinalize env.parentCanceled (repairDrain limits infos)
    else r = (none, none, some .encodeFailed)

/-- C6: a Repair call whose prechecks and encoding pass and whose parent
context is not cancelled returns a non-nil error iff zero piece uploads
succeeded; with zero successes both returned slices are nil and the
error is the all-nodes-failed error; with at least one success the
partial slices come back with no error. -/
theorem Repair_error_iff_zero_success (n : Nat) (env : RepairEnv)
    (limits : List (Option AddressedOrderLimit)) (r : RepairResult)
    (hpre : repairPrecheck limits n = none)
    (henc : env.encodeOk = true)
    (hpar : env.parentCanceled = false)
    (hr : RepairReturns n env limits r) :
    (r.2.2 ≠ none ↔ (canonicalInfos limits env).countP (infoSuccess limits) = 0) ∧
    ((canonicalInfos limits env).countP (infoSuccess limits) = 0 →
      r = (none, none, some .allNodesFailed)) ∧
    (0 < (canonicalInfos limits env).countP (infoSuccess limits) →
      ∃ nodes hashes, r = (some nodes, some hashes, none)) := by
  unfold RepairReturns at hr
  rw [hpre] at hr
  dsimp only at hr
  rw [if_pos (by rw [henc])] at hr
  obtain ⟨infos, hperm, hfin⟩ := hr
  have hcnt : (repairDrain limits infos).successfulCount =
      (canonicalInfos limits env).countP (infoSuccess limits) := by
    have h := (repairDrain_go_counts limits infos initAcc).1
    unfold repairDrain
    rw [h, hperm.countP_eq]
    simp [initAcc]
  unfold repairFinalize at hfin
  rw [hpar] at hfin
  simp only [Bool.false_eq_true, if_false] at hfin
  by_cases hz : (repairDrain limits infos).successfulCount = 0
  · rw [if_pos hz] at hfin
    rw [← hcnt]
    refine ⟨?_, fun _ => hfin, fun hpos => absurd hz (by omega)⟩
    rw [hfin]
    simp [hz]
  · rw [if_neg hz] at hfin
    rw [← hcnt]
    refine ⟨?_, fun h0 => absurd h0 hz, fun _ => ⟨_, _, hfin⟩⟩
    rw [hfin]
    simp [hz]

/-- An upload environment whose single slot fails with a plain node
error. -/
def egC6Env : RepairEnv := ⟨true, fun _ => ⟨none, .error [.nodeErr 2], false⟩, false⟩

/-- Witness for C6: a one-slot Repair in which the only upload fails,
so the call errs with all-nodes-failed and nil slices. -/
theorem Repair_error_iff_zero_success_witness :
    ((none, none, some RepairErr.allNodesFailed) : RepairResult).2.2 ≠ none ∧
    (canonicalInfos [some egLimit] egC6Env).countP (infoSuccess [some egLimit]) = 0 := by
  have hret : RepairReturns 1 egC6Env [some egLimit]
      (none, none, some RepairErr.allNodesFailed) :=
    ⟨canonicalInfos [some egLimit] egC6Env, List.Perm.refl _, rfl⟩
  have h := Repair_error_iff_zero_success 1 egC6Env [some egLimit]
    (none, none, some RepairErr.allNodesFailed) (by decide) rfl rfl hret
  exact ⟨h.1.mpr (by decide), by decide⟩

/-- C8: Repair per-slot accounting over one full drain of the n task
results, in any arrival order.  A nil slot's task reports (nil, nil)
after draining its reader, the nil slot feeds none of the three
counters and its array entries stay nil; the three counters together
count every non-nil slot exactly once; and a non-nil slot's entries in
successfulNodes and successfulHashes are set iff its putPiece returned
without error, in which case they hold the node descriptor and the
reported hash. -/
theorem Repair_slot_accounting (env : RepairEnv)
    (limits : List (Option AddressedOrderLimit)) (infos : List UploadInfo)
    (hperm : infos.Perm (canonicalInfos limits env)) :
    (∀ senv, putPiece none senv = (none, none)) ∧
    (repairDrain limits infos).successfulCount + (repairDrain limits infos).failureCount +
        (repairDrain limits infos).cancellationCount = nonNilCount limits ∧
    (∀ j, limitAt limits j = none →
      (repairDrain limits infos).successfulNodes j = none ∧
      (repairDrain limits infos).successfulHashes j = none) ∧
    (∀ j al, limitAt limits j = some al →
      ((putPiece (some al) (env.slot j)).2 = none →
        (repairDrain limits infos).successfulNodes j =
          some ⟨al.limit.storageNodeId, al.address⟩ ∧
        (repairDrain limits infos).successfulHashes j =
          (putPiece (some al) (env.slot j)).1) ∧
      ((putPiece (some al) (env.slot j)).2 ≠ none →
        (repairDrain limits infos).successfulNodes j = none ∧
        (repairDrain limits infos).successfulHashes j = none)) := by
  have hnd : (infos.map (fun inf => inf.i)).Nodup := by
    have hp : (infos.map (fun inf => inf.i)).Perm
        ((canonicalInfos limits env).map (fun inf => inf.i)) := hperm.map _
    have hcan : (canonicalInfos limits env).map (fun inf => inf.i) =
        List.range limits.length := by
      unfold canonicalInfos
      rw [List.map_map]
      have : ((fun inf => inf.i) ∘ slotInfo limits env) = id := by
        funext i
        rfl
      rw [this, List.map_id]
    rw [hcan] at hp
    exact hp.nodup_iff.mpr (List.nodup_range _)
  have hmemC : ∀ i, i < limits.length → slotInfo limits env i ∈ infos := by
    intro i hi
    rw [hperm.mem_iff]
    exact List.mem_map.mpr ⟨i, List.mem_range.mpr hi, rfl⟩
  have hinfoform : ∀ inf ∈ infos, inf = slotInfo limits env inf.i := by
    intro inf hin
    rw [hperm.mem_iff] at hin
    obtain ⟨i, hi, heq⟩ := List.mem_map.mp hin
    rw [← heq]
    rfl
  refine ⟨fun senv => rfl, drain_counts_total limits env infos hperm, ?_, ?_⟩
  · intro j hj
    exact repairDrain_go_untouched limits j infos
      (fun inf hin hc => by rw [hj] at hc; exact absurd hc.2.1 (by decide)) initAcc
  · intro j al hal
    have hjlt : j < limits.length := limitAt_isSome_lt limits j (by rw [hal]; rfl)
    constructor
    · intro hsucc
      have hmem := hmemC j hjlt
      have hform : slotInfo limits env j =
          ⟨j, (putPiece (some al) (env.slot j)).2, (putPiece (some al) (env.slot j)).1⟩ := by
        unfold slotInfo
        rw [hal]
      have := repairDrain_go_written limits j al hal infos hnd
        (slotInfo limits env j) hmem (by rw [hform]) (by rw [hform, hsucc]) initAcc
      refine ⟨this.1, this.2.trans ?_⟩
      rw [hform]
    · intro hfail
      refine repairDrain_go_untouched limits j infos ?_ initAcc
      rintro inf hin ⟨hij, -, herr⟩
      have hform := hinfoform inf hin
      rw [hij] at hform
      rw [hform] at herr
      unfold slotInfo at herr
      rw [hal] at herr
      exact hfail herr

/-- An upload environment in which every slot succeeds. -/
def egREnvOk : RepairEnv := ⟨true, fun _ => ⟨none, .ok ⟨5, [1], 3⟩, false⟩, false⟩

/-- Witness for C8 on a two-slot call with one successful upload and a
nil second slot. -/
theorem Repair_slot_accounting_witness :
    (repairDrain [some egLimit, none]
        (canonicalInfos [some egLimit, none] egREnvOk)).successfulCount +
      (repairDrain [some egLimit, none]
        (canonicalInfos [some egLimit, none] egREnvOk)).failureCount +
      (repairDrain [some egLimit, none]
        (canonicalInfos [some egLimit, none] egREnvOk)).cancellationCount = 1 ∧
    (repairDrain [some egLimit, none]
        (canonicalInfos [some egLimit, none] egREnvOk)).successfulNodes 1 = none ∧
    (repairDrain [some egLimit, none]
        (canonicalInfos [some egLimit, none] egREnvOk)).successfulNodes 0 = some ⟨1, 9⟩ := by
  have h := Repair_slot_accounting egREnvOk [some egLimit, none]
    (canonicalInfos [some egLimit, none] egREnvOk) (List.Perm.refl _)
  refine ⟨h.2.1, (h.2.2.1 1 rfl).1, ?_⟩
  exact ((h.2.2.2 0 egLimit rfl).1 rfl).1

/-- Two non-nil limits both carrying the zero destination node id. -/
def dupZeroLimits : List (Option AddressedOrderLimit) :=
  [some ⟨⟨0, 5, 3, 0⟩, 8⟩, some ⟨⟨0, 6, 3, 0⟩, 9⟩]

/-- C7 counterexample: two non-nil slots carrying the same destination
node id — the zero id — are not rejected: unique accepts the slice, the
Repair precheck passes, and with an all-successful upload environment
Repair runs the upload phase and returns no error at all, instead of
the immediate duplicated-nodes error the claim requires. -/
theorem Repair_zero_id_duplicate_not_rejected :
    unique dupZeroLimits = true ∧
    repairPrecheck dupZeroLimits 2 = none ∧
    RepairReturns 2 egREnvOk dupZeroLimits
      (repairFinalize false
        (repairDrain dupZeroLimits (canonicalInfos dupZeroLimits egREnvOk))) ∧
    (repairFinalize false
        (repairDrain dupZeroLimits (canonicalInfos dupZeroLimits egREnvOk))).2.2 = none := by
  refine ⟨by decide, by decide, ?_, by decide⟩
  exact ⟨canonicalInfos dupZeroLimits egREnvOk, List.Perm.refl _, rfl⟩

/-- C7 (amended): configuration errors are fatal and detected before
any network activity — the result is the same error for every
environment, so no dial and no encoding can have been consulted.  Get
rejects a limits slice whose length differs from the scheme total n,
and then one with fewer than k non-nil slots; Repair rejects a length
mismatch, and then a slice in which some NONZERO destination node id
occupies two slots (the zero id, in particular the one nil slots leave
behind, is exempt — see the unique scan). -/
theorem config_errors_immediate (k n : Nat) (limits : List (Option AddressedOrderLimit)) :
    (limits.length ≠ n →
      ∀ fecOk genv r, GetReturns k n fecOk genv limits r ↔
        r = .precheckErr (.limitsCountMismatch limits.length n)) ∧
    (limits.length = n → nonNilCount limits < k →
      ∀ fecOk genv r, GetReturns k n fecOk genv limits r ↔
        r = .precheckErr (.notEnoughNonNil (nonNilCount limits) k)) ∧
    (limits.length ≠ n →
      ∀ renv r, RepairReturns n renv limits r ↔
        r = (none, none, some (.precheck (.limitsCountMismatch limits.length n)))) ∧
    (limits.length = n → (∃ x, x ≠ 0 ∧ 2 ≤ (limitIds limits).count x) →
      ∀ renv r, RepairReturns n renv limits r ↔
        r = (none, none, some (.precheck .duplicatedNodes))) := by
  refine ⟨?_, ?_, ?_, ?_⟩
  · intro hlen fecOk genv r
    unfold GetReturns getPrecheck
    rw [if_pos hlen]
  · intro hlen hnn fecOk genv r
    unfold GetReturns getPrecheck
    rw [if_neg (not_not_intro hlen), if_pos hnn]
  · intro hlen renv r
    unfold RepairReturns repairPrecheck
    rw [if_pos hlen]
  · intro hlen hdup renv r
    have huniq : unique limits = false := (unique_eq_false_iff limits).mpr hdup
    unfold RepairReturns repairPrecheck
    rw [if_neg (not_not_intro hlen), if_pos (by rw [huniq]; decide)]

/-- Two non-nil limits carrying the same nonzero destination node id. -/
def dupOneLimits : List (Option AddressedOrderLimit) :=
  [some ⟨⟨1, 5, 3, 0⟩, 8⟩, some ⟨⟨1, 6, 3, 0⟩, 9⟩]

/-- Witness for C7 (amended): a length mismatch forces the Get error,
and a repeated nonzero destination id forces the Repair error, whatever
the environment. -/
theorem config_errors_immediate_witness :
    GetReturns 1 2 true egEnv [some egLimit]
      (.precheckErr (.limitsCountMismatch 1 2)) ∧
    RepairReturns 2 egREnvOk dupOneLimits
      (none, none, some (.precheck .duplicatedNodes)) := by
  constructor
  · exact ((config_errors_immediate 1 2 [some egLimit]).1 (by decide) true egEnv _).mpr rfl
  · exact ((config_errors_immediate 1 2 dupOneLimits).2.2.2 (by decide)
      ⟨1, by decide, by decide⟩ egREnvOk _).mpr rfl

end ECRepair
